import Mathlib

/-!
Verification of the token-resolution registry and the price-cache engine of
an EVM wallet-intelligence backend.

The definitions below are a shallow embedding of
`backend/core/coingecko.py` (class `CoinGeckoClient`, the price cache and
batch fetch engine) and `backend/core/token_registry.py` (class
`TokenRegistry`, the address resolver and spam blacklist).

Modelling choices, uniform across the file:
* Python `dict`s become association lists `List (String × α)` with
  `getA` / `insertA` / `eraseA` mirroring `d.get k` / `d[k] = v` / `del d[k]`.
* Unix timestamps (`time.time()`) become `Int`; USD prices become `Rat`.
* The network is an oracle passed as a parameter: each HTTP request the code
  would issue consumes one oracle value describing the response
  (`Resp` for the price endpoint, `RegResp` for the coin-list endpoint).
* `list(set(xs))` has unspecified iteration order in Python; it is embedded
  deterministically as `List.dedup`.
* The async generator `get_price_batches` is embedded as a function
  returning the list of the batches it yields, in yield order, together
  with the final cache/disk state.  `asyncio.sleep` has no observable
  effect in the embedding.
* File persistence (`json.dump` to a snapshot path) is embedded as a
  dedicated field of the state holding the last written value.
-/

namespace EvmEngine

/-- Association-list lookup, modelling Python `dict.get k` (`None` when
the key is absent). -/
def getA {α : Type} : List (String × α) → String → Option α
  | [], _ => none
  | p :: rest, k => if p.1 = k then some p.2 else getA rest k

/-- Association-list write, modelling Python `d[k] = v`: replaces the
binding of `k` in place if present, else appends a new binding. -/
def insertA {α : Type} : List (String × α) → String → α → List (String × α)
  | [], k, v => [(k, v)]
  | p :: rest, k, v => if p.1 = k then (k, v) :: rest else p :: insertA rest k v

/-- Association-list delete, modelling Python `del d[k]`. -/
def eraseA {α : Type} : List (String × α) → String → List (String × α)
  | [], _ => []
  | p :: rest, k => if p.1 = k then eraseA rest k else p :: eraseA rest k

/-- Python's `str.lower()` restricted to ASCII, which is all the code ever
lowercases (hex addresses).  `String.toLower` itself does not reduce in the
kernel, so the embedding maps `Char.toLower` over the character list. -/
def pyLower (s : String) : String :=
  String.mk (s.data.map Char.toLower)

lemma getA_insertA_self {α : Type} (l : List (String × α)) (k : String) (v : α) :
    getA (insertA l k v) k = some v := by
  induction l with
  | nil => simp [insertA, getA]
  | cons p rest ih =>
      by_cases h : p.1 = k
      · simp [insertA, h, getA]
      · simp [insertA, h, getA, ih]

lemma getA_insertA_ne {α : Type} (l : List (String × α)) (k k2 : String) (v : α)
    (hne : ¬ k = k2) : getA (insertA l k v) k2 = getA l k2 := by
  induction l with
  | nil => simp [insertA, getA, hne]
  | cons p rest ih =>
      by_cases h : p.1 = k
      · simp [insertA, h, getA, hne]
      · have hkk : ¬ k2 = k := fun hh => hne hh.symm
        by_cases h2 : p.1 = k2
        · simp [insertA, h, getA, h2, hkk]
        · simp [insertA, h, getA, h2, ih]

lemma getA_eraseA_self {α : Type} (l : List (String × α)) (k : String) :
    getA (eraseA l k) k = none := by
  induction l with
  | nil => simp [eraseA, getA]
  | cons p rest ih =>
      by_cases h : p.1 = k
      · simp [eraseA, h, ih]
      · simp [eraseA, h, getA, ih]

/-! ## Price cache / fetch engine (`backend/core/coingecko.py`) -/

/-- `PRICE_TTL = 600` (seconds), coingecko.py line 11. -/
def PRICE_TTL : Int := 600

/-- `chunk_size = 50`, coingecko.py line 79. -/
def CHUNK_SIZE : Nat := 50

/-- One price-cache entry: `{ "price": ..., "ts": ... }` (coingecko.py
lines 24 and 101-104). -/
structure CachedPrice where
  price : Rat
  ts : Int
deriving DecidableEq

/-- The in-memory price cache `self.price_cache`. -/
def Cache : Type := List (String × CachedPrice)

instance : DecidableEq Cache := by
  unfold Cache
  infer_instance

/-- The `source` tag attached to every yielded batch. -/
inductive Source where
  | cache
  | api
  | stale_cache
deriving DecidableEq

/-- One batch yielded by `get_price_batches`:
`{"data": {...}, "source": ...}`. -/
structure Batch where
  data : List (String × Rat)
  source : Source
deriving DecidableEq

/-- Outcome of one request to the `/simple/price` endpoint, as observed by
the code.  A 200 body is the decoded JSON object: per id, the value object,
which may or may not carry a `"usd"` field (`Option Rat`).  `otherStatus`
is any status other than 200/429; `netError` is a raised exception. -/
inductive Resp where
  | ok (body : List (String × Option Rat))
  | rateLimited
  | otherStatus
  | netError
deriving DecidableEq

/-- Engine state: the in-memory cache plus the on-disk snapshot the last
`_save_cache_to_disk` wrote (coingecko.py lines 38-41). -/
structure PriceState where
  cache : Cache
  disk : Cache
deriving DecidableEq

/-- The fresh/stale partition loop, coingecko.py lines 59-66: an id whose
cache entry satisfies `now - ts < PRICE_TTL` goes to `cached_batch` with
its cached price, every other id goes to `to_fetch`, preserving order. -/
def splitIds (cache : Cache) (now : Int) : List String → List (String × Rat) × List String
  | [] => ([], [])
  | tid :: rest =>
      let r := splitIds cache now rest
      match getA cache tid with
      | some d =>
          if now - d.ts < PRICE_TTL then ((tid, d.price) :: r.1, r.2)
          else (r.1, tid :: r.2)
      | none => (r.1, tid :: r.2)

/-- The freshness test of coingecko.py line 63, as a standalone predicate:
a cache entry exists and `now - ts < PRICE_TTL`. -/
def isFresh (cache : Cache) (now : Int) (tid : String) : Bool :=
  match getA cache tid with
  | some d => decide (now - d.ts < PRICE_TTL)
  | none => false

/-- `range(0, len(to_fetch), chunk_size)` slicing, coingecko.py
lines 81-82: split a list into successive chunks of `CHUNK_SIZE`.
Structural recursion on a fuel bounded by the list length (so that the
definition reduces in the kernel); `chunks50` passes enough fuel for the
whole list. -/
def chunksAux : Nat → List String → List (List String)
  | 0, _ => []
  | fuel + 1, l =>
      if l = [] then []
      else l.take CHUNK_SIZE :: chunksAux fuel (l.drop CHUNK_SIZE)

def chunks50 (l : List String) : List (List String) :=
  chunksAux l.length l

lemma chunksAux_flatten :
    ∀ (fuel : Nat) (l : List String), l.length ≤ fuel → (chunksAux fuel l).flatten = l := by
  intro fuel
  induction fuel with
  | zero =>
      intro l hl
      have : l = [] := List.eq_nil_of_length_eq_zero (Nat.le_zero.mp hl)
      rw [this]
      simp [chunksAux]
  | succ n ih =>
      intro l hl
      by_cases h : l = []
      · rw [h]
        simp [chunksAux]
      · have hp : 0 < l.length := List.length_pos.mpr h
        have hd : (l.drop CHUNK_SIZE).length ≤ n := by
          rw [List.length_drop]
          simp only [CHUNK_SIZE]
          omega
        simp [chunksAux, h, ih _ hd, List.take_append_drop]

lemma chunks50_flatten (l : List String) : (chunks50 l).flatten = l :=
  chunksAux_flatten l.length l (Nat.le_refl _)

/-- The 200-response loop body, coingecko.py lines 94-106: walk the chunk in
order; an id present in the response gets `api_data[tid].get("usd", 0.0)`
as its price and a cache write `{price, ts}`; an id absent from the
response is reported with price `0.0` and no cache write.  Returns the
built `fresh_batch` and the updated cache. -/
def procOk (body : List (String × Option Rat)) (t : Int) :
    List String → Cache → List (String × Rat) × Cache
  | [], c => ([], c)
  | tid :: rest, c =>
      match getA body tid with
      | some v =>
          let price := v.getD 0
          let r := procOk body t rest (insertA c tid ⟨price, t⟩)
          ((tid, price) :: r.1, r.2)
      | none =>
          let r := procOk body t rest c
          ((tid, (0 : Rat)) :: r.1, r.2)

/-- The 429 salvage loop, coingecko.py lines 116-119: every id of the chunk
that has any cache entry, paired with its cached price, in chunk order. -/
def staleFor (cache : Cache) (chunk : List String) : List (String × Rat) :=
  chunk.filterMap (fun tid => (getA cache tid).map (fun d => (tid, d.price)))

/-- Processing of one chunk, coingecko.py lines 85-125: the batches yielded
for this chunk (in order) and the state afterwards.  A 200 response builds
the fresh batch, persists the cache to disk, and yields one `api` batch;
a 429 yields the salvaged `stale_cache` batch when non-empty and mutates
nothing; any other status or an exception yields nothing and mutates
nothing.  `t` is the wall-clock time of the cache writes. -/
def oneChunk (ps : PriceState) (chunk : List String) (r : Resp) (t : Int) :
    List Batch × PriceState :=
  match r with
  | Resp.ok body =>
      let pr := procOk body t chunk ps.cache
      ([⟨pr.1, Source.api⟩], ⟨pr.2, pr.2⟩)
  | Resp.rateLimited =>
      let sb := staleFor ps.cache chunk
      (if sb = [] then [] else [⟨sb, Source.stale_cache⟩], ps)
  | Resp.otherStatus => ([], ps)
  | Resp.netError => ([], ps)

/-- The chunk loop, coingecko.py lines 81-128: process chunks in order,
threading the state; `resp k` / `tsf k` are the response and wall-clock
time of the `k`-th request. -/
def chunkLoop (resp : Nat → Resp) (tsf : Nat → Int) :
    PriceState → Nat → List (List String) → List Batch × PriceState
  | ps, _, [] => ([], ps)
  | ps, k, c :: cs =>
      let o := oneChunk ps c (resp k) (tsf k)
      let rest := chunkLoop resp tsf o.2 (k + 1) cs
      (o.1 ++ rest.1, rest.2)

/-- `CoinGeckoClient.get_price_batches`, coingecko.py lines 43-128:
deduplicate, partition by freshness at time `now`, yield the cached batch
first when non-empty, then fetch the rest in chunks of `CHUNK_SIZE`.
Returns the yielded batches in yield order and the final state. -/
def get_price_batches (ps : PriceState) (token_ids : List String) (now : Int)
    (resp : Nat → Resp) (tsf : Nat → Int) : List Batch × PriceState :=
  let unique_ids := token_ids.dedup
  if unique_ids = [] then ([], ps)
  else
    let s := splitIds ps.cache now unique_ids
    let pre : List Batch := if s.1 = [] then [] else [⟨s.1, Source.cache⟩]
    if s.2 = [] then (pre, ps)
    else
      let r := chunkLoop resp tsf ps 0 (chunks50 s.2)
      (pre ++ r.1, r.2)

/-- `CoinGeckoClient._load_cache_from_disk`, coingecko.py lines 28-36:
the load of the price-cache snapshot is wrapped in `try/except`, so a
malformed file degrades to the empty cache. -/
inductive DiskJson (α : Type) where
  | absent
  | malformed
  | ok (val : α)
deriving DecidableEq

def load_cache_from_disk (d : DiskJson Cache) : Cache :=
  match d with
  | DiskJson.absent => []
  | DiskJson.malformed => []
  | DiskJson.ok c => c

/-! ## Token registry / spam blacklist (`backend/core/token_registry.py`) -/

/-- `CACHE_DURATION = 86400` (1 day), token_registry.py line 13. -/
def CACHE_DURATION : Int := 86400

/-- `MISSING_TTL = 86400 * 3` (3 days), token_registry.py line 14. -/
def MISSING_TTL : Int := 86400 * 3

/-- `REFRESH_COOLDOWN = 3600` (1 hour), token_registry.py line 15. -/
def REFRESH_COOLDOWN : Int := 3600

/-- One element of the upstream coin list:
`{"id": ..., "platforms": {platform: address}}`. -/
structure Coin where
  id : String
  platforms : List (String × String)
deriving DecidableEq

/-- Outcome of one request to the coin-list endpoint: a decoded 200 body,
a non-200 status, or a raised exception. -/
inductive RegResp where
  | ok (data : List Coin)
  | badStatus
  | netError
deriving DecidableEq

/-- `TokenRegistry` state.  `lookup_map` / `missing_map` / `last_refresh_ts`
are the in-memory fields; `missing_disk` models the last value written to
`MISSING_FILE`; `reg_disk` the last coin list written to `REGISTRY_FILE`;
`regfile_mtime` models `os.path.getmtime(REGISTRY_FILE)` (`none` when the
file does not exist). -/
structure Registry where
  lookup_map : List (String × List (String × String))
  missing_map : List (String × Int)
  missing_disk : List (String × Int)
  regfile_mtime : Option Int
  reg_disk : Option (List Coin)
  last_refresh_ts : Int
deriving DecidableEq

/-- `self.chain_map`, token_registry.py lines 34-39. -/
def chain_map : List (String × String) :=
  [("1", "ethereum"), ("137", "polygon-pos"),
   ("42161", "arbitrum-one"), ("56", "binance-smart-chain")]

/-- `TokenRegistry._is_cache_stale`, token_registry.py lines 71-77: true
when `REGISTRY_FILE` is missing or its mtime is more than 1 day old. -/
def is_cache_stale (st : Registry) (now : Int) : Bool :=
  match st.regfile_mtime with
  | none => true
  | some m => decide (now - m > CACHE_DURATION)

/-- `TokenRegistry._build_fast_lookup`, token_registry.py lines 186-199:
index the raw coin list as platform → lowercased address → id, skipping
falsy (empty) addresses. -/
def build_fast_lookup (data : List Coin) : List (String × List (String × String)) :=
  data.foldl
    (fun acc coin =>
      coin.platforms.foldl
        (fun acc2 pa =>
          if pa.2 = "" then acc2
          else insertA acc2 pa.1 (insertA ((getA acc2 pa.1).getD []) (pyLower pa.2) coin.id))
        acc)
    []

/-- `TokenRegistry._refresh_registry_if_needed`, token_registry.py
lines 147-184.  Returns (fetch-succeeded flag, new state, number of
network requests issued).  On success the raw payload is written to the
registry file (so its mtime becomes `now`), the lookup map is rebuilt and
the last-refresh timestamp updated; on a non-200 status or an exception
nothing changes. -/
def refresh_registry (st : Registry) (now : Int) (force : Bool) (net : RegResp) :
    Bool × Registry × Nat :=
  if force ∧ now - st.last_refresh_ts < REFRESH_COOLDOWN then (false, st, 0)
  else if is_cache_stale st now ∨ force = true then
    match net with
    | RegResp.ok data =>
        (true,
         { st with
            reg_disk := some data
            regfile_mtime := some now
            lookup_map := build_fast_lookup data
            last_refresh_ts := now }, 1)
    | RegResp.badStatus => (false, st, 1)
    | RegResp.netError => (false, st, 1)
  else (false, st, 0)

/-- `self.lookup_map.get(platform, {}).get(addr_lower)`, token_registry.py
line 100. -/
def lookupAddr (st : Registry) (platform addr : String) : Option String :=
  getA ((getA st.lookup_map platform).getD []) addr

/-- Python truthiness of an optional string, as used in
`if not platform` (line 87) and `if cg_id` (lines 101, 130):
`None` and the empty string are falsy. -/
def truthy (o : Option String) : Bool :=
  match o with
  | none => false
  | some s => if s = "" then false else true

/-- Result of one `resolve_token` call: the returned value, the state
afterwards, and how many network requests were issued. -/
structure ResolveOut where
  result : Option String
  st : Registry
  calls : Nat
deriving DecidableEq

/-- STEP 4 of `resolve_token`, token_registry.py lines 137-145: blacklist
the address with the current timestamp, persist the blacklist, return
`None`. -/
def resolveStep4 (st : Registry) (c : Nat) (addr_lower : String) (now : Int) : ResolveOut :=
  let mm := insertA st.missing_map addr_lower now
  ⟨none, { st with missing_map := mm, missing_disk := mm }, c⟩

/-- STEP 3 of `resolve_token`, token_registry.py lines 119-135: when the
last refresh is older than the cooldown, force a refresh; on a successful
refresh re-check the lookup map once and return a truthy hit directly
(without touching the blacklist); otherwise fall through to STEP 4. -/
def resolveStep3 (st : Registry) (c : Nat) (platform addr_lower : String) (now : Int)
    (net2 : RegResp) : ResolveOut :=
  if now - st.last_refresh_ts > REFRESH_COOLDOWN then
    let r := refresh_registry st now true net2
    if r.1 then
      let cg2 := lookupAddr r.2.1 platform addr_lower
      if truthy cg2 then ⟨cg2, r.2.1, c + r.2.2⟩
      else resolveStep4 r.2.1 (c + r.2.2) addr_lower now
    else resolveStep4 r.2.1 (c + r.2.2) addr_lower now
  else resolveStep4 st c addr_lower now

/-- STEP 2 of `resolve_token`, token_registry.py lines 108-117: a truthy
blacklist entry younger than `MISSING_TTL` short-circuits to `None`; a
truthy expired entry is deleted (in memory only) before falling through;
a falsy entry (absent, or timestamp `0`) falls through untouched. -/
def resolveStep2 (st : Registry) (c : Nat) (platform addr_lower : String) (now : Int)
    (net2 : RegResp) : ResolveOut :=
  match getA st.missing_map addr_lower with
  | some t =>
      if t = 0 then resolveStep3 st c platform addr_lower now net2
      else if now - t < MISSING_TTL then ⟨none, st, c⟩
      else
        resolveStep3 { st with missing_map := eraseA st.missing_map addr_lower }
          c platform addr_lower now net2
  | none => resolveStep3 st c platform addr_lower now net2

/-- STEP 1 of `resolve_token`, token_registry.py lines 98-106: a truthy
lookup-map hit deletes any blacklist entry for the address (persisting the
blacklist) and returns the id; otherwise continue with STEP 2. -/
def resolveStep1 (st : Registry) (c : Nat) (platform addr_lower : String) (now : Int)
    (net2 : RegResp) : ResolveOut :=
  let cg_id := lookupAddr st platform addr_lower
  if truthy cg_id then
    if (getA st.missing_map addr_lower).isSome then
      let mm := eraseA st.missing_map addr_lower
      ⟨cg_id, { st with missing_map := mm, missing_disk := mm }, c⟩
    else ⟨cg_id, st, c⟩
  else resolveStep2 st c platform addr_lower now net2

/-- STEP 0 of `resolve_token`, token_registry.py lines 92-96: when the
registry snapshot is stale, run a non-forced refresh first. -/
def resolveStep0 (st : Registry) (now : Int) (net1 : RegResp) : Registry × Nat :=
  if is_cache_stale st now then
    let r := refresh_registry st now false net1
    (r.2.1, r.2.2)
  else (st, 0)

/-- `TokenRegistry.resolve_token`, token_registry.py lines 79-145.
`net1` / `net2` are the oracle outcomes of the (at most two) coin-list
requests the call can issue; `now` is the wall clock. -/
def resolve_token (st : Registry) (chain_id address : String) (now : Int)
    (net1 net2 : RegResp) : ResolveOut :=
  match getA chain_map chain_id with
  | none => ⟨none, st, 0⟩
  | some platform =>
      if platform = "" then ⟨none, st, 0⟩
      else
        let p := resolveStep0 st now net1
        resolveStep1 p.1 p.2 platform (pyLower address) now net2

/-- `TokenRegistry._load_missing_cache`, token_registry.py lines 62-65:
`json.load` on `MISSING_FILE` is NOT guarded by `try/except`; a malformed
file raises (modelled as `Except.error`), aborting initialization. -/
def load_missing_cache (d : DiskJson (List (String × Int))) :
    Except Unit (List (String × Int)) :=
  match d with
  | DiskJson.absent => Except.ok []
  | DiskJson.malformed => Except.error ()
  | DiskJson.ok m => Except.ok m

/-- `TokenRegistry.initialize_local`, token_registry.py lines 45-60: when
`REGISTRY_FILE` exists, take its mtime as the last-refresh timestamp; if
it is fresh, `json.load` it — NOT guarded by `try/except`, so a malformed
file raises (modelled as `Except.error`).  Returns the loaded lookup map
(if any) and the last-refresh timestamp. -/
def init_local (regfile : DiskJson (List Coin)) (mtime now : Int) :
    Except Unit (Option (List (String × List (String × String))) × Int) :=
  match regfile with
  | DiskJson.absent => Except.ok (none, 0)
  | DiskJson.malformed =>
      if now - mtime > CACHE_DURATION then Except.ok (none, mtime)
      else Except.error ()
  | DiskJson.ok data =>
      if now - mtime > CACHE_DURATION then Except.ok (none, mtime)
      else Except.ok (some (build_fast_lookup data), mtime)

/-! ## Helper lemmas -/

/-- The price the 200-response handler reports for an id of the chunk:
the `"usd"` field when the id is present in the response (defaulting to
`0.0` when the field is missing), and `0.0` when the id is absent. -/
def respPrice (body : List (String × Option Rat)) (tid : String) : Rat :=
  match getA body tid with
  | some v => v.getD 0
  | none => 0

lemma procOk_fst (body : List (String × Option Rat)) (t : Int) :
    ∀ (chunk : List String) (c : Cache),
      (procOk body t chunk c).1 = chunk.map (fun tid => (tid, respPrice body tid)) := by
  intro chunk
  induction chunk with
  | nil => intro c; simp [procOk]
  | cons tid rest ih =>
      intro c
      cases hb : getA body tid with
      | some v => simp [procOk, hb, respPrice, ih]
      | none => simp [procOk, hb, respPrice, ih]

lemma procOk_getA (body : List (String × Option Rat)) (t : Int) :
    ∀ (chunk : List String) (c : Cache) (k : String),
      getA (procOk body t chunk c).2 k =
        if k ∈ chunk ∧ (getA body k).isSome = true
        then some ⟨respPrice body k, t⟩
        else getA c k := by
  intro chunk
  induction chunk with
  | nil => intro c k; simp [procOk]
  | cons tid rest ih =>
      intro c k
      cases hb : getA body tid with
      | some v =>
          simp only [procOk, hb]
          rw [ih]
          by_cases hk : k = tid
          · subst hk
            by_cases hr : k ∈ rest
            · simp [hr, hb]
            · simp [hr, hb, getA_insertA_self, respPrice]
          · have hne : ¬ tid = k := fun hh => hk hh.symm
            by_cases hr : k ∈ rest
            · simp [hr, List.mem_cons, getA_insertA_ne _ _ _ _ hne]
            · simp [hr, hk, List.mem_cons, getA_insertA_ne _ _ _ _ hne]
      | none =>
          simp only [procOk, hb]
          rw [ih]
          by_cases hk : k = tid
          · subst hk
            simp [hb, List.mem_cons]
          · simp [hk, List.mem_cons]

lemma oneChunk_rl_state (ps : PriceState) (chunk : List String) (t : Int) :
    (oneChunk ps chunk Resp.rateLimited t).2 = ps := by
  simp only [oneChunk]

lemma chunkLoop_sources (resp : Nat → Resp) (tsf : Nat → Int) :
    ∀ (cs : List (List String)) (ps : PriceState) (k : Nat) (b : Batch),
      b ∈ (chunkLoop resp tsf ps k cs).1 → ¬ b.source = Source.cache := by
  intro cs
  induction cs with
  | nil => intro ps k b hb; simp [chunkLoop] at hb
  | cons c rest ih =>
      intro ps k b hb
      simp only [chunkLoop] at hb
      rw [List.mem_append] at hb
      rcases hb with hb | hb
      · cases hr : resp k with
        | ok body =>
            rw [hr] at hb
            simp only [oneChunk, List.mem_singleton] at hb
            rw [hb]
            simp
        | rateLimited =>
            rw [hr] at hb
            simp only [oneChunk] at hb
            split at hb
            · simp at hb
            · rw [List.mem_singleton] at hb
              rw [hb]
              simp
        | otherStatus =>
            rw [hr] at hb
            simp [oneChunk] at hb
        | netError =>
            rw [hr] at hb
            simp [oneChunk] at hb
      · exact ih _ _ _ hb

lemma splitIds_fst_iff (cache : Cache) (now : Int) :
    ∀ (l : List String) (tid : String),
      tid ∈ (splitIds cache now l).1.map Prod.fst
        ↔ (tid ∈ l ∧ isFresh cache now tid = true) := by
  intro l
  induction l with
  | nil => intro tid; simp [splitIds]
  | cons hd rest ih =>
      intro tid
      cases hc : getA cache hd with
      | some d =>
          by_cases hf : now - d.ts < PRICE_TTL
          · have hfh : isFresh cache now hd = true := by simp [isFresh, hc, hf]
            simp only [splitIds, hc, if_pos hf, List.map_cons, List.mem_cons, ih]
            constructor
            · rintro (rfl | ⟨hr, hfr⟩)
              · exact ⟨Or.inl rfl, hfh⟩
              · exact ⟨Or.inr hr, hfr⟩
            · rintro ⟨rfl | hr, hfr⟩
              · exact Or.inl rfl
              · exact Or.inr ⟨hr, hfr⟩
          · have hfh : isFresh cache now hd = false := by simp [isFresh, hc, hf]
            simp only [splitIds, hc, if_neg hf, List.mem_cons, ih]
            constructor
            · rintro ⟨hr, hfr⟩
              exact ⟨Or.inr hr, hfr⟩
            · rintro ⟨rfl | hr, hfr⟩
              · rw [hfh] at hfr; cases hfr
              · exact ⟨hr, hfr⟩
      | none =>
          have hfh : isFresh cache now hd = false := by simp [isFresh, hc]
          simp only [splitIds, hc, List.mem_cons, ih]
          constructor
          · rintro ⟨hr, hfr⟩
            exact ⟨Or.inr hr, hfr⟩
          · rintro ⟨rfl | hr, hfr⟩
            · rw [hfh] at hfr; cases hfr
            · exact ⟨hr, hfr⟩

lemma splitIds_snd_iff (cache : Cache) (now : Int) :
    ∀ (l : List String) (tid : String),
      tid ∈ (splitIds cache now l).2
        ↔ (tid ∈ l ∧ isFresh cache now tid = false) := by
  intro l
  induction l with
  | nil => intro tid; simp [splitIds]
  | cons hd rest ih =>
      intro tid
      cases hc : getA cache hd with
      | some d =>
          by_cases hf : now - d.ts < PRICE_TTL
          · have hfh : isFresh cache now hd = true := by simp [isFresh, hc, hf]
            simp only [splitIds, hc, if_pos hf, List.mem_cons, ih]
            constructor
            · rintro ⟨hr, hfr⟩
              exact ⟨Or.inr hr, hfr⟩
            · rintro ⟨rfl | hr, hfr⟩
              · rw [hfh] at hfr; cases hfr
              · exact ⟨hr, hfr⟩
          · have hfh : isFresh cache now hd = false := by simp [isFresh, hc, hf]
            simp only [splitIds, hc, if_neg hf, List.mem_cons, ih]
            constructor
            · rintro (rfl | ⟨hr, hfr⟩)
              · exact ⟨Or.inl rfl, hfh⟩
              · exact ⟨Or.inr hr, hfr⟩
            · rintro ⟨rfl | hr, hfr⟩
              · exact Or.inl rfl
              · exact Or.inr ⟨hr, hfr⟩
      | none =>
          have hfh : isFresh cache now hd = false := by simp [isFresh, hc]
          simp only [splitIds, hc, List.mem_cons, ih]
          constructor
          · rintro (rfl | ⟨hr, hfr⟩)
            · exact ⟨Or.inl rfl, hfh⟩
            · exact ⟨Or.inr hr, hfr⟩
          · rintro ⟨rfl | hr, hfr⟩
            · exact Or.inl rfl
            · exact Or.inr ⟨hr, hfr⟩

lemma get_price_batches_shape (ps : PriceState) (ids : List String) (now : Int)
    (resp : Nat → Resp) (tsf : Nat → Int) :
    (get_price_batches ps ids now resp tsf).1
      = (if (splitIds ps.cache now ids.dedup).1 = [] ∨ ids.dedup = []
          then ([] : List Batch)
          else [⟨(splitIds ps.cache now ids.dedup).1, Source.cache⟩])
        ++ (if ids.dedup = [] ∨ (splitIds ps.cache now ids.dedup).2 = []
            then ([] : List Batch)
            else (chunkLoop resp tsf ps 0 (chunks50 (splitIds ps.cache now ids.dedup).2)).1) := by
  unfold get_price_batches
  by_cases hu : ids.dedup = []
  · simp [hu]
  · by_cases h1 : (splitIds ps.cache now ids.dedup).1 = []
    · by_cases h2 : (splitIds ps.cache now ids.dedup).2 = []
      · simp [hu, h1, h2]
      · simp [hu, h1, h2]
    · by_cases h2 : (splitIds ps.cache now ids.dedup).2 = []
      · simp [hu, h1, h2]
      · simp [hu, h1, h2]

/-! ## Claims about the token registry -/

/-- Claim C3: for every chainId that does not map to a known platform key,
`resolve_token` returns `None` immediately, issues no network request, and
leaves the whole state — in particular the blacklist, in memory and on
disk — unchanged. -/
theorem C3_unknown_chain (st : Registry) (chain_id address : String) (now : Int)
    (net1 net2 : RegResp) (h : getA chain_map chain_id = none) :
    resolve_token st chain_id address now net1 net2 = ⟨none, st, 0⟩ := by
  simp [resolve_token, h]

theorem C3_witness :
    resolve_token ⟨[], [("0xa", 5)], [("0xa", 5)], none, none, 0⟩ "2" "0xA" 1000
        RegResp.netError RegResp.netError
      = ⟨none, ⟨[], [("0xa", 5)], [("0xa", 5)], none, none, 0⟩, 0⟩ :=
  C3_unknown_chain _ "2" "0xA" 1000 RegResp.netError RegResp.netError (by decide)

/-- Claim C8: a failed registry refresh (exception or non-200 status from
the coin-list endpoint) returns `False` and leaves the whole registry
state — lookup map, on-disk snapshot, last-refresh timestamp — exactly as
it was. -/
theorem C8_refresh_failure (st : Registry) (now : Int) (force : Bool) (net : RegResp)
    (h : ∀ d, ¬ net = RegResp.ok d) :
    (refresh_registry st now force net).1 = false
    ∧ (refresh_registry st now force net).2.1 = st := by
  cases net with
  | ok d => exact absurd rfl (h d)
  | badStatus =>
      unfold refresh_registry
      split
      · exact ⟨rfl, rfl⟩
      · split
        · exact ⟨rfl, rfl⟩
        · exact ⟨rfl, rfl⟩
  | netError =>
      unfold refresh_registry
      split
      · exact ⟨rfl, rfl⟩
      · split
        · exact ⟨rfl, rfl⟩
        · exact ⟨rfl, rfl⟩

theorem C8_witness :
    (refresh_registry ⟨[("ethereum", [("0xa", "tok-a")])], [], [], some 400, some [], 400⟩
        500000 true RegResp.netError).1 = false
    ∧ (refresh_registry ⟨[("ethereum", [("0xa", "tok-a")])], [], [], some 400, some [], 400⟩
        500000 true RegResp.netError).2.1
      = ⟨[("ethereum", [("0xa", "tok-a")])], [], [], some 400, some [], 400⟩ :=
  C8_refresh_failure _ 500000 true RegResp.netError
    (fun d hh => RegResp.noConfusion hh)

/-- Claim C1, amended: PROVIDED the registry snapshot is fresh (younger
than 24h, so the step-0 proactive refresh is skipped), an address that is
not (truthy-)resolvable in the lookup map and has a truthy blacklist entry
younger than `MISSING_TTL` resolves to `None` with zero network requests
and a completely unchanged state — in particular the blacklist entry stays
in place.  (The freshness proviso is forced: with a stale snapshot the
code issues the step-0 coin-list request before ever consulting the
blacklist, refuting the claim as stated; see the counterexample.) -/
theorem C1_fresh_blacklist_short_circuit (st : Registry) (chain_id address : String)
    (now t : Int) (net1 net2 : RegResp) (platform : String)
    (hp : getA chain_map chain_id = some platform) (hpe : ¬ platform = "")
    (hreg : is_cache_stale st now = false)
    (hmiss : truthy (lookupAddr st platform (pyLower address)) = false)
    (hb : getA st.missing_map (pyLower address) = some t) (ht : ¬ t = 0)
    (hyoung : now - t < MISSING_TTL) :
    resolve_token st chain_id address now net1 net2 = ⟨none, st, 0⟩ := by
  simp only [resolve_token, hp]
  rw [if_neg hpe]
  have h0 : resolveStep0 st now net1 = (st, 0) := by
    simp [resolveStep0, hreg]
  rw [h0]
  simp only [resolveStep1, hmiss, Bool.false_eq_true, if_false]
  simp [resolveStep2, hb, ht, hyoung]

def C1cxState : Registry := ⟨[], [("0xa", 999000)], [("0xa", 999000)], none, none, 0⟩

/-- Counterexample to claim C1 as stated: with a stale registry snapshot
(no registry file on disk), the queried address is absent from the lookup
map and has a blacklist entry only 1000 seconds old — yet the call issues
a network request (the step-0 proactive coin-list fetch) before returning
`None`. -/
theorem C1_counterexample :
    truthy (lookupAddr C1cxState "ethereum" "0xa") = false
    ∧ getA C1cxState.missing_map "0xa" = some 999000
    ∧ ((1000000 : Int) - 999000 < MISSING_TTL)
    ∧ (resolve_token C1cxState "1" "0xa" 1000000 RegResp.netError RegResp.netError).result
        = none
    ∧ ¬ (resolve_token C1cxState "1" "0xa" 1000000 RegResp.netError RegResp.netError).calls
        = 0 := by
  refine ⟨by decide, by decide, by decide, by decide, by decide⟩

def C1wState : Registry :=
  ⟨[], [("0xa", 999000)], [("0xa", 999000)], some 999500, none, 999500⟩

theorem C1_witness :
    resolve_token C1wState "1" "0xA" 1000000 RegResp.netError RegResp.netError
      = ⟨none, C1wState, 0⟩ :=
  C1_fresh_blacklist_short_circuit C1wState "1" "0xA" 1000000 999000
    RegResp.netError RegResp.netError "ethereum"
    (by decide) (by decide) (by decide) (by decide) (by decide) (by decide) (by decide)

lemma refresh_registry_missing (st : Registry) (now : Int) (force : Bool) (net : RegResp) :
    (refresh_registry st now force net).2.1.missing_map = st.missing_map := by
  unfold refresh_registry
  split
  · rfl
  · split
    · cases net <;> rfl
    · rfl

lemma resolveStep0_missing (st : Registry) (now : Int) (net1 : RegResp) :
    (resolveStep0 st now net1).1.missing_map = st.missing_map := by
  unfold resolveStep0
  split
  · exact refresh_registry_missing st now false net1
  · rfl

/-- A truthy result of STEP 3 comes from the post-refresh lookup map, and
when the address had no blacklist entry on entering STEP 3, none exists
afterwards either (the refresh does not touch the blacklist). -/
lemma resolveStep3_result (st : Registry) (c : Nat) (platform addr : String) (now : Int)
    (net2 : RegResp) (hm : getA st.missing_map addr = none)
    (htr : truthy (resolveStep3 st c platform addr now net2).result = true) :
    (resolveStep3 st c platform addr now net2).result
        = lookupAddr (resolveStep3 st c platform addr now net2).st platform addr
    ∧ getA (resolveStep3 st c platform addr now net2).st.missing_map addr = none := by
  simp only [resolveStep3] at htr ⊢
  by_cases hcd : now - st.last_refresh_ts > REFRESH_COOLDOWN
  · rw [if_pos hcd] at htr ⊢
    by_cases hr1 : (refresh_registry st now true net2).1 = true
    · rw [if_pos hr1] at htr ⊢
      by_cases hcg :
          truthy (lookupAddr (refresh_registry st now true net2).2.1 platform addr) = true
      · rw [if_pos hcg] at htr ⊢
        refine ⟨rfl, ?_⟩
        rw [refresh_registry_missing]
        exact hm
      · rw [if_neg hcg] at htr
        simp [resolveStep4, truthy] at htr
    · rw [if_neg hr1] at htr
      simp [resolveStep4, truthy] at htr
  · rw [if_neg hcd] at htr
    simp [resolveStep4, truthy] at htr

/-- Claim C2, amended: whenever a `resolve_token` call finds the
lowercased queried address in the lookup map — at the initial (step-1)
lookup or at the step-3 re-check after a forced refresh, i.e. exactly when
the call returns an asset id — the returned id is the lookup-map binding
of the queried address in the final state, and (provided any pre-existing
blacklist entry for the address has a nonzero timestamp, the only kind the
program writes) the final state carries no blacklist entry for the queried
address: a step-1 hit deletes the entry at return, while on the step-3
path the entry was already deleted by the expired-blacklist step.  The
claim's blanket invariant over ALL addresses does not hold: a step-0
refresh performed while resolving one address can make a different,
still-blacklisted address resolvable (see the counterexample). -/
theorem C2_lookup_hit_clears_blacklist (st : Registry) (chain_id address : String)
    (now : Int) (net1 net2 : RegResp) (platform : String)
    (hp : getA chain_map chain_id = some platform) (hpe : ¬ platform = "")
    (hnz : ¬ getA st.missing_map (pyLower address) = some 0)
    (htr : truthy (resolve_token st chain_id address now net1 net2).result = true) :
    (resolve_token st chain_id address now net1 net2).result
        = lookupAddr (resolve_token st chain_id address now net1 net2).st
            platform (pyLower address)
    ∧ getA (resolve_token st chain_id address now net1 net2).st.missing_map
        (pyLower address) = none := by
  simp only [resolve_token, hp] at htr ⊢
  rw [if_neg hpe] at htr ⊢
  have hm0 : (resolveStep0 st now net1).1.missing_map = st.missing_map :=
    resolveStep0_missing st now net1
  by_cases h1 : truthy (lookupAddr (resolveStep0 st now net1).1 platform (pyLower address))
      = true
  · simp only [resolveStep1, h1, if_true]
    by_cases hms :
        (getA (resolveStep0 st now net1).1.missing_map (pyLower address)).isSome = true
    · rw [if_pos hms]
      exact ⟨rfl, getA_eraseA_self _ _⟩
    · rw [if_neg hms]
      exact ⟨rfl, Option.not_isSome_iff_eq_none.mp hms⟩
  · simp only [resolveStep1] at htr ⊢
    rw [if_neg h1] at htr ⊢
    cases hmt : getA (resolveStep0 st now net1).1.missing_map (pyLower address) with
    | none =>
        simp only [resolveStep2, hmt] at htr ⊢
        exact resolveStep3_result _ _ _ _ _ _ hmt htr
    | some t =>
        have ht0 : ¬ t = 0 := by
          intro hh
          rw [hh] at hmt
          rw [hm0] at hmt
          exact hnz hmt
        simp only [resolveStep2, hmt] at htr ⊢
        rw [if_neg ht0] at htr ⊢
        by_cases hfr : now - t < MISSING_TTL
        · rw [if_pos hfr] at htr
          simp [truthy] at htr
        · rw [if_neg hfr] at htr ⊢
          exact resolveStep3_result _ _ _ _ _ _ (getA_eraseA_self _ _) htr

def C2cxState : Registry := ⟨[], [("0xb", 999000)], [("0xb", 999000)], none, none, 0⟩

def C2cxList : List Coin := [⟨"tok-b", [("ethereum", "0xB")]⟩]

/-- Counterexample to claim C2 as stated: starting from a state where no
address is both resolvable and blacklisted, a single `resolve_token` call
for address `0xa` (which triggers the step-0 refresh) ends in a state
where `0xb` is resolvable in the lookup map AND still has its (young)
blacklist entry. -/
theorem C2_counterexample :
    truthy (lookupAddr
        (resolve_token C2cxState "1" "0xa" 1000000 (RegResp.ok C2cxList) RegResp.netError).st
        "ethereum" "0xb") = true
    ∧ getA (resolve_token C2cxState "1" "0xa" 1000000 (RegResp.ok C2cxList)
        RegResp.netError).st.missing_map "0xb" = some 999000
    ∧ ((1000000 : Int) - 999000 < MISSING_TTL) := by
  refine ⟨by decide, by decide, by decide⟩

def C2wState : Registry :=
  ⟨[], [("0xa", 100)], [("0xa", 100)], some 999999, none, 0⟩

def C2wList : List Coin := [⟨"tok-a", [("ethereum", "0xA")]⟩]

theorem C2_witness :
    (resolve_token C2wState "1" "0xA" 1000000 RegResp.netError (RegResp.ok C2wList)).result
        = lookupAddr (resolve_token C2wState "1" "0xA" 1000000 RegResp.netError
            (RegResp.ok C2wList)).st "ethereum" (pyLower "0xA")
    ∧ getA (resolve_token C2wState "1" "0xA" 1000000 RegResp.netError
        (RegResp.ok C2wList)).st.missing_map (pyLower "0xA") = none :=
  C2_lookup_hit_clears_blacklist C2wState "1" "0xA" 1000000 RegResp.netError
    (RegResp.ok C2wList) "ethereum" (by decide) (by decide) (by decide) (by decide)

/-- Claim C9 (the code contradicts it): of the three on-disk snapshots,
only the price cache recovers from a malformed file — its loader wraps
`json.load` in `try/except` and degrades to the empty cache.  The
blacklist loader (`_load_missing_cache`) and the fresh-registry-file
branch of `initialize_local` call `json.load` unguarded, so a malformed
`missing_tokens.json` or `coin_list.json` raises during `TokenRegistry`
construction instead of being treated as a cold cache. -/
theorem C9_malformed_snapshots :
    load_cache_from_disk DiskJson.malformed = ([] : Cache)
    ∧ load_missing_cache DiskJson.malformed = Except.error ()
    ∧ init_local DiskJson.malformed 1000 2000 = Except.error () := by
  refine ⟨rfl, rfl, ?_⟩
  unfold init_local
  rw [if_neg (by decide)]

/-! ## Claims about the price engine -/

/-- Claim C4: within one `get_price_batches` call, every batch after the
first yielded one is not cache-tagged; a cache-tagged batch, when yielded,
is the very first batch; and the chunk loop emits each chunk's batches
before (and never merged with) those of the following chunks, threading
the state in chunk order. -/
theorem C4_cache_batch_first (ps : PriceState) (ids : List String) (now : Int)
    (resp : Nat → Resp) (tsf : Nat → Int) :
    (∀ b ∈ ((get_price_batches ps ids now resp tsf).1).drop 1,
        ¬ b.source = Source.cache)
    ∧ (∀ b ∈ (get_price_batches ps ids now resp tsf).1, b.source = Source.cache →
        ((get_price_batches ps ids now resp tsf).1).head? = some b)
    ∧ (∀ (qs : PriceState) (k : Nat) (c : List String) (cs : List (List String)),
        chunkLoop resp tsf qs k (c :: cs)
          = ((oneChunk qs c (resp k) (tsf k)).1
                ++ (chunkLoop resp tsf (oneChunk qs c (resp k) (tsf k)).2 (k + 1) cs).1,
             (chunkLoop resp tsf (oneChunk qs c (resp k) (tsf k)).2 (k + 1) cs).2)) := by
  refine ⟨?_, ?_, ?_⟩
  · intro b hb
    rw [get_price_batches_shape ps ids now resp tsf] at hb
    by_cases h1 : ((splitIds ps.cache now ids.dedup).1 = [] ∨ ids.dedup = [])
    · rw [if_pos h1, List.nil_append] at hb
      by_cases h2 : (ids.dedup = [] ∨ (splitIds ps.cache now ids.dedup).2 = [])
      · rw [if_pos h2] at hb
        simp at hb
      · rw [if_neg h2] at hb
        exact chunkLoop_sources resp tsf _ ps 0 b (List.drop_subset _ _ hb)
    · rw [if_neg h1, List.singleton_append, List.drop_succ_cons, List.drop_zero] at hb
      by_cases h2 : (ids.dedup = [] ∨ (splitIds ps.cache now ids.dedup).2 = [])
      · rw [if_pos h2] at hb
        simp at hb
      · rw [if_neg h2] at hb
        exact chunkLoop_sources resp tsf _ ps 0 b hb
  · intro b hb hbsrc
    rw [get_price_batches_shape ps ids now resp tsf] at hb ⊢
    by_cases h1 : ((splitIds ps.cache now ids.dedup).1 = [] ∨ ids.dedup = [])
    · rw [if_pos h1, List.nil_append] at hb
      by_cases h2 : (ids.dedup = [] ∨ (splitIds ps.cache now ids.dedup).2 = [])
      · rw [if_pos h2] at hb
        simp at hb
      · rw [if_neg h2] at hb
        exact absurd hbsrc (chunkLoop_sources resp tsf _ ps 0 b hb)
    · rw [if_neg h1, List.singleton_append] at hb ⊢
      rcases List.mem_cons.mp hb with hb | hb
      · rw [hb]
        rfl
      · by_cases h2 : (ids.dedup = [] ∨ (splitIds ps.cache now ids.dedup).2 = [])
        · rw [if_pos h2] at hb
          simp at hb
        · rw [if_neg h2] at hb
          exact absurd hbsrc (chunkLoop_sources resp tsf _ ps 0 b hb)
  · intro qs k c cs
    rfl

def C4wPs : PriceState := ⟨[("bitcoin", ⟨60000, 100⟩)], [("bitcoin", ⟨60000, 100⟩)]⟩

def C4wResp : Nat → Resp := fun _ => Resp.ok [("ethereum", some 3000)]

def C4wTsf : Nat → Int := fun _ => 205

theorem C4_witness :
    (Batch.mk [("ethereum", (3000 : Rat))] Source.api)
        ∈ ((get_price_batches C4wPs ["bitcoin", "ethereum"] 200 C4wResp C4wTsf).1).drop 1
    ∧ ¬ (Batch.mk [("ethereum", (3000 : Rat))] Source.api).source = Source.cache :=
  ⟨by decide,
   (C4_cache_batch_first C4wPs ["bitcoin", "ethereum"] 200 C4wResp C4wTsf).1
     (Batch.mk [("ethereum", (3000 : Rat))] Source.api) (by decide)⟩

/-- Claim C5: `get_price_batches` partitions the deduplicated ids by
freshness at call time: an id whose cache entry satisfies
`now - ts < PRICE_TTL` lands in the cache-sourced batch and appears in no
fetch chunk of the call, while an id without a cache entry or whose age is
at or past the TTL always lands in the fetch list and never in the cache
batch. -/
theorem C5_freshness_partition (ps : PriceState) (now : Int) (token_ids : List String)
    (resp : Nat → Resp) (tsf : Nat → Int) (tid : String) (h : tid ∈ token_ids) :
    (isFresh ps.cache now tid = true →
        tid ∈ (splitIds ps.cache now token_ids.dedup).1.map Prod.fst
        ∧ ¬ tid ∈ (chunks50 (splitIds ps.cache now token_ids.dedup).2).flatten
        ∧ ∃ b, b ∈ (get_price_batches ps token_ids now resp tsf).1
            ∧ b.source = Source.cache ∧ tid ∈ b.data.map Prod.fst)
    ∧ (isFresh ps.cache now tid = false →
        tid ∈ (splitIds ps.cache now token_ids.dedup).2
        ∧ ¬ tid ∈ (splitIds ps.cache now token_ids.dedup).1.map Prod.fst) := by
  have hd : tid ∈ token_ids.dedup := List.mem_dedup.mpr h
  constructor
  · intro hf
    have f1 : tid ∈ (splitIds ps.cache now token_ids.dedup).1.map Prod.fst :=
      (splitIds_fst_iff ps.cache now _ tid).mpr ⟨hd, hf⟩
    have f2 : ¬ tid ∈ (chunks50 (splitIds ps.cache now token_ids.dedup).2).flatten := by
      rw [chunks50_flatten]
      intro hin
      have h2 := (splitIds_snd_iff ps.cache now _ tid).mp hin
      rw [hf] at h2
      exact absurd h2.2 (by simp)
    refine ⟨f1, f2,
      ⟨(splitIds ps.cache now token_ids.dedup).1, Source.cache⟩, ?_, rfl, f1⟩
    have hu : ¬ token_ids.dedup = [] := by
      intro hh
      rw [hh] at hd
      exact absurd hd (List.not_mem_nil tid)
    have hs1 : ¬ (splitIds ps.cache now token_ids.dedup).1 = [] := by
      intro hh
      rw [hh] at f1
      exact absurd f1 (by simp)
    rw [get_price_batches_shape ps token_ids now resp tsf]
    rw [if_neg (not_or.mpr ⟨hs1, hu⟩)]
    exact List.mem_append_left _ (List.mem_singleton.mpr rfl)
  · intro hf
    refine ⟨(splitIds_snd_iff ps.cache now _ tid).mpr ⟨hd, hf⟩, fun hin => ?_⟩
    have h1 := (splitIds_fst_iff ps.cache now _ tid).mp hin
    rw [hf] at h1
    exact absurd h1.2 (by simp)

def C5wPs : PriceState := ⟨[("bitcoin", ⟨60000, 100⟩)], []⟩

def C5wResp : Nat → Resp := fun _ => Resp.ok [("ethereum", some 3000)]

def C5wTsf : Nat → Int := fun _ => 205

theorem C5_witness :
    (isFresh C5wPs.cache 200 "bitcoin" = true →
        "bitcoin" ∈ (splitIds C5wPs.cache 200
            (["bitcoin", "ethereum"] : List String).dedup).1.map Prod.fst
        ∧ ¬ "bitcoin" ∈ (chunks50 (splitIds C5wPs.cache 200
            (["bitcoin", "ethereum"] : List String).dedup).2).flatten
        ∧ ∃ b, b ∈ (get_price_batches C5wPs ["bitcoin", "ethereum"] 200 C5wResp C5wTsf).1
            ∧ b.source = Source.cache ∧ "bitcoin" ∈ b.data.map Prod.fst)
    ∧ (isFresh C5wPs.cache 200 "bitcoin" = false →
        "bitcoin" ∈ (splitIds C5wPs.cache 200
            (["bitcoin", "ethereum"] : List String).dedup).2
        ∧ ¬ "bitcoin" ∈ (splitIds C5wPs.cache 200
            (["bitcoin", "ethereum"] : List String).dedup).1.map Prod.fst) :=
  C5_freshness_partition C5wPs 200 ["bitcoin", "ethereum"] C5wResp C5wTsf "bitcoin"
    (by decide)

/-- Claim C6: on a 429 response for a chunk, the salvaged batch pairs
exactly the chunk's ids that have any prior cache entry (of any age) with
their cached prices, is yielded only when non-empty, never invents a price
for an id without a cache entry, leaves the state untouched, and the loop
then continues with the next chunk from the same state. -/
theorem C6_rate_limited (ps : PriceState) (chunk : List String) (t : Int) :
    (oneChunk ps chunk Resp.rateLimited t).2 = ps
    ∧ (staleFor ps.cache chunk = [] → (oneChunk ps chunk Resp.rateLimited t).1 = [])
    ∧ (¬ staleFor ps.cache chunk = [] →
        (oneChunk ps chunk Resp.rateLimited t).1
          = [⟨staleFor ps.cache chunk, Source.stale_cache⟩])
    ∧ (∀ tid, tid ∈ (staleFor ps.cache chunk).map Prod.fst
        ↔ tid ∈ chunk ∧ (getA ps.cache tid).isSome = true)
    ∧ (∀ tid p, (tid, p) ∈ staleFor ps.cache chunk
        → ∃ d, getA ps.cache tid = some d ∧ p = d.price)
    ∧ (∀ (rs : Nat → Resp) (tsf : Nat → Int) (k : Nat) (cs : List (List String)),
        rs k = Resp.rateLimited →
        chunkLoop rs tsf ps k (chunk :: cs)
          = ((oneChunk ps chunk Resp.rateLimited (tsf k)).1
                ++ (chunkLoop rs tsf ps (k + 1) cs).1,
             (chunkLoop rs tsf ps (k + 1) cs).2)) := by
  refine ⟨oneChunk_rl_state ps chunk t, ?_, ?_, ?_, ?_, ?_⟩
  · intro he
    simp [oneChunk, he]
  · intro he
    simp [oneChunk, he]
  · intro tid
    constructor
    · intro hm
      rcases List.mem_map.mp hm with ⟨pr, hpr, hfst⟩
      rcases List.mem_filterMap.mp hpr with ⟨a, ha, hf⟩
      rcases Option.map_eq_some'.mp hf with ⟨d, hd, hpd⟩
      rw [← hpd] at hfst
      simp only at hfst
      rw [← hfst]
      exact ⟨ha, by rw [hd]; rfl⟩
    · rintro ⟨hc, hs⟩
      rcases Option.isSome_iff_exists.mp hs with ⟨d, hd⟩
      exact List.mem_map.mpr ⟨(tid, d.price),
        List.mem_filterMap.mpr ⟨tid, hc, by rw [hd]; rfl⟩, rfl⟩
  · intro tid p hm
    rcases List.mem_filterMap.mp hm with ⟨a, ha, hf⟩
    rcases Option.map_eq_some'.mp hf with ⟨d, hd, hpd⟩
    have hat : a = tid := congrArg Prod.fst hpd
    have hpp : p = d.price := (congrArg Prod.snd hpd).symm
    rw [hat] at hd
    exact ⟨d, hd, hpp⟩
  · intro rs tsf k cs hr
    simp only [chunkLoop, hr, oneChunk_rl_state]

theorem C6_witness :
    ¬ staleFor (PriceState.mk [("bitcoin", ⟨60000, 100⟩)] []).cache ["bitcoin"] = []
    ∧ (oneChunk (PriceState.mk [("bitcoin", ⟨60000, 100⟩)] [])
        ["bitcoin"] Resp.rateLimited 500).1
      = [⟨staleFor (PriceState.mk [("bitcoin", ⟨60000, 100⟩)] []).cache ["bitcoin"],
          Source.stale_cache⟩] :=
  ⟨by decide,
   (C6_rate_limited (PriceState.mk [("bitcoin", ⟨60000, 100⟩)] []) ["bitcoin"] 500).2.2.1
     (by decide)⟩

/-- Claim C7: on a 200 response for a chunk, exactly one `api`-tagged
batch is yielded; every id of the chunk present in the response gets its
extracted price written to the cache with timestamp `t` and appears with
that price in the batch; every id of the chunk absent from the response
appears in the batch with price `0.0` and its cache entry is untouched;
and the on-disk snapshot equals the updated cache afterwards (the cache is
persisted after the chunk's writes). -/
theorem C7_ok_response (ps : PriceState) (chunk : List String)
    (body : List (String × Option Rat)) (t : Int) :
    (oneChunk ps chunk (Resp.ok body) t).1
        = [⟨(procOk body t chunk ps.cache).1, Source.api⟩]
    ∧ (oneChunk ps chunk (Resp.ok body) t).2.disk
        = (oneChunk ps chunk (Resp.ok body) t).2.cache
    ∧ (∀ tid v, tid ∈ chunk → getA body tid = some v →
        getA (oneChunk ps chunk (Resp.ok body) t).2.cache tid = some ⟨v.getD 0, t⟩
        ∧ (tid, v.getD 0) ∈ (procOk body t chunk ps.cache).1)
    ∧ (∀ tid, tid ∈ chunk → getA body tid = none →
        (tid, (0 : Rat)) ∈ (procOk body t chunk ps.cache).1
        ∧ getA (oneChunk ps chunk (Resp.ok body) t).2.cache tid = getA ps.cache tid) := by
  refine ⟨rfl, rfl, ?_, ?_⟩
  · intro tid v htid hv
    constructor
    · have hc := procOk_getA body t chunk ps.cache tid
      rw [if_pos ⟨htid, by rw [hv]; rfl⟩] at hc
      have hrp : respPrice body tid = v.getD 0 := by simp [respPrice, hv]
      rw [hrp] at hc
      exact hc
    · rw [procOk_fst]
      refine List.mem_map.mpr ⟨tid, htid, ?_⟩
      simp [respPrice, hv]
  · intro tid htid hvn
    constructor
    · rw [procOk_fst]
      refine List.mem_map.mpr ⟨tid, htid, ?_⟩
      simp [respPrice, hvn]
    · have hc := procOk_getA body t chunk ps.cache tid
      rw [if_neg (by rw [hvn]; simp)] at hc
      exact hc

def C7wPs : PriceState := ⟨[], []⟩

theorem C7_witness :
    ("ethereum" ∈ (["ethereum"] : List String))
    ∧ getA [("ethereum", some (3000 : Rat))] "ethereum" = some (some 3000)
    ∧ (getA (oneChunk C7wPs ["ethereum"]
          (Resp.ok [("ethereum", some 3000)]) 205).2.cache "ethereum"
        = some ⟨(some (3000 : Rat)).getD 0, 205⟩
      ∧ ("ethereum", (some (3000 : Rat)).getD 0)
          ∈ (procOk [("ethereum", some 3000)] 205 ["ethereum"] C7wPs.cache).1) :=
  ⟨by decide, by decide,
   (C7_ok_response C7wPs ["ethereum"] [("ethereum", some 3000)] 205).2.2.1
     "ethereum" (some 3000) (by decide) (by decide)⟩

/-- Claim C10: an id present in a 200 response whose value object lacks
the `"usd"` key is cached as `{price: 0.0, ts: t}` and reported with price
`0.0` in the `api` batch; the zero entry is fresh for the next
`PRICE_TTL` seconds (so the id is not re-fetched in that window); and the
resulting cache entry is identical to the one a genuine `usd: 0.0` price
would have produced. -/
theorem C10_missing_usd (ps : PriceState) (chunk : List String)
    (body : List (String × Option Rat)) (t now2 : Int) (tid : String)
    (h1 : tid ∈ chunk) (h2 : getA body tid = some none)
    (h3 : now2 - t < PRICE_TTL) :
    getA (oneChunk ps chunk (Resp.ok body) t).2.cache tid = some ⟨0, t⟩
    ∧ (tid, (0 : Rat)) ∈ (procOk body t chunk ps.cache).1
    ∧ isFresh (oneChunk ps chunk (Resp.ok body) t).2.cache now2 tid = true
    ∧ (∀ body2, getA body2 tid = some (some 0) →
        getA (oneChunk ps chunk (Resp.ok body2) t).2.cache tid
          = getA (oneChunk ps chunk (Resp.ok body) t).2.cache tid) := by
  have hc := procOk_getA body t chunk ps.cache tid
  rw [if_pos ⟨h1, by rw [h2]; rfl⟩] at hc
  have hrp : respPrice body tid = 0 := by simp [respPrice, h2]
  rw [hrp] at hc
  refine ⟨hc, ?_, ?_, ?_⟩
  · rw [procOk_fst]
    refine List.mem_map.mpr ⟨tid, h1, ?_⟩
    simp [respPrice, h2]
  · have hcx : getA (oneChunk ps chunk (Resp.ok body) t).2.cache tid
        = some ⟨(0 : Rat), t⟩ := hc
    simp [isFresh, hcx, h3]
  · intro body2 hb2
    have hc2 := procOk_getA body2 t chunk ps.cache tid
    rw [if_pos ⟨h1, by rw [hb2]; rfl⟩] at hc2
    have hrp2 : respPrice body2 tid = 0 := by simp [respPrice, hb2]
    rw [hrp2] at hc2
    exact hc2.trans hc.symm

def C10wPs : PriceState := ⟨[], []⟩

theorem C10_witness :
    getA (oneChunk C10wPs ["spamtoken"]
        (Resp.ok [("spamtoken", none)]) 205).2.cache "spamtoken" = some ⟨0, 205⟩
    ∧ ("spamtoken", (0 : Rat))
        ∈ (procOk [("spamtoken", (none : Option Rat))] 205 ["spamtoken"] C10wPs.cache).1
    ∧ isFresh (oneChunk C10wPs ["spamtoken"]
        (Resp.ok [("spamtoken", none)]) 205).2.cache 700 "spamtoken" = true
    ∧ (∀ body2, getA body2 "spamtoken" = some (some 0) →
        getA (oneChunk C10wPs ["spamtoken"] (Resp.ok body2) 205).2.cache "spamtoken"
          = getA (oneChunk C10wPs ["spamtoken"]
              (Resp.ok [("spamtoken", none)]) 205).2.cache "spamtoken") :=
  C10_missing_usd C10wPs ["spamtoken"] [("spamtoken", none)] 205 700 "spamtoken"
    (by decide) (by decide) (by decide)

end EvmEngine
